import Mathlib

/-!
Shallow embedding of the dxf2gcode converter and G-code interpreter
(src/dxf_to_gcode.py).  Python floats are idealised as real numbers; the
fixed-point textual formatting (3 decimals for coordinates, 1 for feeds)
is abstracted away: a G-code line is represented by a constructor of
`GLine` carrying the numeric literals that appear on the rendered line.
-/

noncomputable section

open scoped Classical

namespace DxfGcode

/-- Tool position (x, y, z), as the Python tuple `current_pos`. -/
abbrev Pos : Type := ℝ × ℝ × ℝ

/-- Python `math.isclose a b` with the default `rel_tol = 1e-9`,
`abs_tol = 0`. -/
def isclose (a b : ℝ) : Prop := |a - b| ≤ 1 / 10 ^ 9 * max |a| |b|

/-- One emitted G-code line.  Each constructor corresponds to one of the
f-string templates of `dxf_to_gcode.py`; the fields are the numeric
literals printed on that line.
* `g21`, `g90`, `g17`, `m3s` are the fixed header lines `G21`, `G90`,
  `G17`, `M3 S1000`; `m5`, `m2` are the footer lines `M5`, `M2`.
* `g00z z` is `G00 Z{z}`; `g00xy x y` is `G00 X{x} Y{y}` (this also
  models the footer home move `G00 X0 Y0` as `g00xy 0 0`).
* `g01zf z f` is `G01 Z{z} F{f}`; `g01xyf x y f` is `G01 X{x} Y{y} F{f}`.
* `g02xyijf x y i j f` is `G02 X{x} Y{y} I{i} J{j} F{f}`.
* `commentBulge x1 y1 x2 y2` is the comment line
  `; WARNING: LWPOLYLINE bulge segment from (x1, y1) to (x2, y2) treated
  as straight line.` -/
inductive GLine where
  | g21 : GLine
  | g90 : GLine
  | g17 : GLine
  | m3s : GLine
  | m5 : GLine
  | m2 : GLine
  | g00z (z : ℝ) : GLine
  | g00xy (x y : ℝ) : GLine
  | g01zf (z f : ℝ) : GLine
  | g01xyf (x y f : ℝ) : GLine
  | g02xyijf (x y i j f : ℝ) : GLine
  | commentBulge (x1 y1 x2 y2 : ℝ) : GLine

open GLine

/-- `generate_gcode_header(safe_z)`. -/
def generate_gcode_header (safe_z : ℝ) : List GLine :=
  [g21, g90, g17, m3s, g00z safe_z]

/-- `generate_gcode_footer(safe_z)`.  The home move `G00 X0 Y0` is
`g00xy 0 0`. -/
def generate_gcode_footer (safe_z : ℝ) : List GLine :=
  [g00z safe_z, m5, g00xy 0 0, m2]

/-- The shared positioning step of every converter:
`if current_pos is None or not (isclose(cx, sx) and isclose(cy, sy)):
append G00 X{sx} Y{sy}`. -/
def maybeRapid (cur : Option Pos) (sx sy : ℝ) : List GLine :=
  match cur with
  | none => [g00xy sx sy]
  | some c => if isclose c.1 sx ∧ isclose c.2.1 sy then [] else [g00xy sx sy]

/-- `line_to_gcode` on a LINE entity from `(x1, y1)` to `(x2, y2)`. -/
def line_to_gcode (x1 y1 x2 y2 : ℝ) (cur : Option Pos)
    (feed_xy feed_z safe_z cut_z : ℝ) : List GLine × Option Pos :=
  (maybeRapid cur x1 y1 ++
    [g01zf cut_z feed_z, g01xyf x2 y2 feed_xy, g00z safe_z],
   some (x2, y2, safe_z))

/-- The angle normalisation loop `while a < 0: a += 360; while a >= 360:
a -= 360`, i.e. the representative of `a` modulo 360 in `[0, 360)`; this
is also Python's float `a % 360`. -/
def norm360 (a : ℝ) : ℝ := a - 360 * ⌊a / 360⌋

/-- Point on the circle of centre `(cx, cy)` and radius `r` at the angle
`θ` in degrees: `(cx + r*cos(radians θ), cy + r*sin(radians θ))`. -/
def onCircle (cx cy r θ : ℝ) : ℝ × ℝ :=
  (cx + r * Real.cos (θ * Real.pi / 180), cy + r * Real.sin (θ * Real.pi / 180))

/-- The segment list built by `arc_to_gcode`: one segment
`(x, y, i, j)` if the counter-clockwise sweep is at most 180 degrees,
otherwise two segments split at 180 degrees from the start. -/
def arcSegments (cx cy r sa ea : ℝ) : List (ℝ × ℝ × ℝ × ℝ) :=
  let s := norm360 sa
  let e := norm360 ea
  let sp := onCircle cx cy r s
  let ep := onCircle cx cy r e
  let ccw := norm360 (e - s)
  if ccw ≤ 180 then
    [(ep.1, ep.2, cx - sp.1, cy - sp.2)]
  else
    let m := norm360 (s + 180)
    let mp := onCircle cx cy r m
    [(mp.1, mp.2, cx - sp.1, cy - sp.2),
     (ep.1, ep.2, cx - mp.1, cy - mp.2)]

/-- `arc_to_gcode` on an ARC entity with centre `(cx, cy)`, radius `r`
and angles `sa`, `ea` in degrees. -/
def arc_to_gcode (cx cy r sa ea : ℝ) (cur : Option Pos)
    (feed_xy feed_z safe_z cut_z : ℝ) : List GLine × Option Pos :=
  let s := norm360 sa
  let e := norm360 ea
  let sp := onCircle cx cy r s
  let ep := onCircle cx cy r e
  (maybeRapid cur sp.1 sp.2 ++
    g01zf cut_z feed_z ::
      (arcSegments cx cy r sa ea).map
        (fun sg => g02xyijf sg.1 sg.2.1 sg.2.2.1 sg.2.2.2 feed_xy) ++
    [g00z safe_z],
   some (ep.1, ep.2, safe_z))

/-- `circle_to_gcode` on a CIRCLE entity with centre `(cx, cy)` and
radius `r`: the tool starts at `(cx - r, cy)` and cuts two clockwise
semicircles through `(cx + r, cy)` and back. -/
def circle_to_gcode (cx cy r : ℝ) (cur : Option Pos)
    (feed_xy feed_z safe_z cut_z : ℝ) : List GLine × Option Pos :=
  let p1sx := cx - r
  let p1sy := cy
  let p1ex := cx + r
  let p1ey := cy
  (maybeRapid cur p1sx p1sy ++
    [g01zf cut_z feed_z,
     g02xyijf p1ex p1ey (cx - p1sx) (cy - p1sy) feed_xy,
     g02xyijf p1sx p1sy (cx - p1ex) (cy - p1ey) feed_xy,
     g00z safe_z],
   some (p1sx, p1sy, safe_z))

/-- One vertex of an LWPOLYLINE: `(x, y, bulge)` (the two width fields
of the `xyseb` format are unused by the converter). -/
abbrev PolyVertex : Type := ℝ × ℝ × ℝ

/-- The commands emitted for one polyline segment from `pq.1` to
`pq.2`: a bulged segment yields a warning comment and a straight move,
a straight segment yields just the move. -/
def segCmds (feed_xy : ℝ) (pq : PolyVertex × PolyVertex) : List GLine :=
  if pq.1.2.2 ≠ 0 then
    [commentBulge pq.1.1 pq.1.2.1 pq.2.1 pq.2.2.1,
     g01xyf pq.2.1 pq.2.2.1 feed_xy]
  else
    [g01xyf pq.2.1 pq.2.2.1 feed_xy]

/-- `lwpolyline_to_gcode` on an LWPOLYLINE entity given by its vertex
list.  An empty vertex list emits nothing and leaves the tool state
unchanged. -/
def lwpolyline_to_gcode (pts : List PolyVertex) (cur : Option Pos)
    (feed_xy feed_z safe_z cut_z : ℝ) : List GLine × Option Pos :=
  match pts with
  | [] => ([], cur)
  | p :: rest =>
    let lastP := (p :: rest).getLast (List.cons_ne_nil p rest)
    (maybeRapid cur p.1 p.2.1 ++
      g01zf cut_z feed_z ::
        ((p :: rest).zip rest).flatMap (segCmds feed_xy) ++
      [g00z safe_z],
     some (lastP.1, lastP.2.1, safe_z))

/-! ### Program assembler: global offset pass and start/end override -/

/-- Whether the rendered line contains the character `X` (and hence an
`X`-number token): true exactly for the `X{...} Y{...}` templates.  The
bulge comment contains a `Y` (in `LWPOLYLINE`) but no `X`. -/
def hasX : GLine → Bool
  | g00xy _ _ => true
  | g01xyf _ _ _ => true
  | g02xyijf _ _ _ _ _ => true
  | _ => false

/-- Whether the rendered line contains the character `Y`: the three
`X... Y...` templates and the bulge comment (the word `LWPOLYLINE`). -/
def hasY : GLine → Bool
  | g00xy _ _ => true
  | g01xyf _ _ _ => true
  | g02xyijf _ _ _ _ _ => true
  | commentBulge _ _ _ _ => true
  | _ => false

/-- The Python test `'X' in line and 'Y' in line` used by the override
pass. -/
def hasXY (l : GLine) : Bool := hasX l && hasY l

/-- Whether the line is an arc command (`G02`). -/
def isArc : GLine → Bool
  | g02xyijf _ _ _ _ _ => true
  | _ => false

/-- Whether the line is a comment (starts with `;`). -/
def isComment : GLine → Bool
  | commentBulge _ _ _ _ => true
  | _ => false

/-- The numeric literals following an `X` token on the line, in order
(at most one per template). -/
def xLitsLine : GLine → List ℝ
  | g00xy x _ => [x]
  | g01xyf x _ _ => [x]
  | g02xyijf x _ _ _ _ => [x]
  | _ => []

/-- The numeric literals following a `Y` token on the line.  The bulge
comment contains the letter `Y` but no `Y`-number token, so it
contributes none. -/
def yLitsLine : GLine → List ℝ
  | g00xy _ y => [y]
  | g01xyf _ y _ => [y]
  | g02xyijf _ y _ _ _ => [y]
  | _ => []

/-- All `X` literals of a program, in order. -/
def xLits (p : List GLine) : List ℝ := p.flatMap xLitsLine

/-- All `Y` literals of a program, in order. -/
def yLits (p : List GLine) : List ℝ := p.flatMap yLitsLine

/-- The `I`/`J` literals of a line (`none` for non-arc lines). -/
def ijVal : GLine → Option (ℝ × ℝ)
  | g02xyijf _ _ i j _ => some (i, j)
  | _ => none

/-- The `(X, Y)` literal pair of a line (`none` if the line has no
`X`/`Y` number tokens). -/
def xyVal : GLine → Option (ℝ × ℝ)
  | g00xy x y => some (x, y)
  | g01xyf x y _ => some (x, y)
  | g02xyijf x y _ _ _ => some (x, y)
  | _ => none

/-- The per-line regex rewrite of the offset pass: if the line contains
`X`, every `X`-number literal gets `offset_x` added; likewise for `Y`.
The bulge comment has no `X`- or `Y`-number match, so it is unchanged;
`I`/`J`/`Z`/`F` literals are never touched. -/
def offsetLine (dx dy : ℝ) : GLine → GLine
  | g00xy x y => g00xy (x + dx) (y + dy)
  | g01xyf x y f => g01xyf (x + dx) (y + dy) f
  | g02xyijf x y i j f => g02xyijf (x + dx) (y + dy) i j f
  | l => l

/-- The global offset pass (`dxf_to_gcode`, the `if offset_x or
offset_y:` block): skipped entirely when both offsets are zero
(Python float truthiness), otherwise rewrites every line. -/
def offsetPass (dx dy : ℝ) (p : List GLine) : List GLine :=
  if dx ≠ 0 ∨ dy ≠ 0 then p.map (offsetLine dx dy) else p

/-- The regex rewrite of the override pass applied to one selected
line: the `X` literal becomes `vx` and the `Y` literal becomes `vy`;
`I`/`J`/`F` literals are untouched. -/
def setXY (vx vy : ℝ) : GLine → GLine
  | g00xy _ _ => g00xy vx vy
  | g01xyf _ _ f => g01xyf vx vy f
  | g02xyijf _ _ i j f => g02xyijf vx vy i j f
  | l => l

/-- Forward scan: rewrite the first line containing both `X` and `Y`
with `f`, then stop (the `break` in the Python loop). -/
def overrideFirst (f : GLine → GLine) : List GLine → List GLine
  | [] => []
  | l :: ls => if hasXY l then f l :: ls else l :: overrideFirst f ls

/-- Backward scan: rewrite the last line containing both `X` and `Y`. -/
def overrideLast (f : GLine → GLine) (ls : List GLine) : List GLine :=
  (overrideFirst f ls.reverse).reverse

/-- The assembly tail of `dxf_to_gcode` given the concatenated entity
body: header and footer are attached, the global offset pass runs over
the whole program, the freshly generated (non-offset) footer is sliced
off, the first and last `X`/`Y`-bearing lines of the remainder are
overridden with the requested start/end coordinates, and the fresh
footer is appended back. -/
def dxf_assemble (safe_z : ℝ) (body : List GLine)
    (dx dy sx sy ex ey : ℝ) : List GLine :=
  let g := offsetPass dx dy
    (generate_gcode_header safe_z ++ body ++ generate_gcode_footer safe_z)
  let pre := g.take (g.length - (generate_gcode_footer safe_z).length)
  let pre2 := overrideFirst (setXY sx sy) pre
  let pre3 := overrideLast (setXY ex ey) pre2
  pre3 ++ generate_gcode_footer safe_z

/-- The full `dxf_to_gcode` pipeline for a drawing containing a single
LINE entity (the converter loop starts with `current_pos = None`). -/
def singleLineProgram (x1 y1 x2 y2 feed_xy feed_z safe_z cut_z
    dx dy sx sy ex ey : ℝ) : List GLine :=
  dxf_assemble safe_z
    (line_to_gcode x1 y1 x2 y2 none feed_xy feed_z safe_z cut_z).1
    dx dy sx sy ex ey

/-! ### Program interpreter (`simulate_gcode` and `get_arc_points`) -/

/-- The C library `atan2 y x`, as used by Python's `math.atan2`. -/
def atan2 (y x : ℝ) : ℝ :=
  if 0 < x then Real.arctan (y / x)
  else if x < 0 then
    (if 0 ≤ y then Real.arctan (y / x) + Real.pi
     else Real.arctan (y / x) - Real.pi)
  else
    (if 0 < y then Real.pi / 2
     else if y < 0 then -(Real.pi / 2)
     else 0)

/-- End-angle adjustment of the animation pass of `simulate_gcode`
(`cw = true` for `G02`, `false` for `G03`): clockwise adds 2 pi when
the end angle is below the start angle, counter-clockwise subtracts
2 pi when it is above. -/
def animAdjEnd (cw : Bool) (s e : ℝ) : ℝ :=
  if cw then (if e < s then e + 2 * Real.pi else e)
  else (if s < e then e - 2 * Real.pi else e)

/-- End-angle adjustment of the plotting pass of `simulate_gcode`: a
first generic adjustment is followed by a second one inside the
`G02`/`G03` branch. -/
def plotAdjEnd (cw : Bool) (s e : ℝ) : ℝ :=
  if cw then
    let e1 := if e < s then e + 2 * Real.pi else e
    if e1 ≤ s then e1 + 2 * Real.pi else e1
  else
    let e1 := if s < e then e - 2 * Real.pi else e
    if s ≤ e1 then e1 - 2 * Real.pi else e1

/-- The 21 sample angles `s + (e - s) * k / 20` for `k = 0, ..., 20`
(`num_points = 21`). -/
def arcThetas (s e : ℝ) : List ℝ :=
  (List.range 21).map (fun k => s + (e - s) * k / 20)

/-- The 21 points appended by the animation pass for an arc command
with target `(tx, ty)` and centre offsets `(i, j)`, starting from
`(cx0, cy0)`. -/
def animArcPoints (cx0 cy0 tx ty i j : ℝ) (cw : Bool) : List (ℝ × ℝ) :=
  let cX := cx0 + i
  let cY := cy0 + j
  let r := Real.sqrt (i ^ 2 + j ^ 2)
  let s := atan2 (cy0 - cY) (cx0 - cX)
  let e := atan2 (ty - cY) (tx - cX)
  let e2 := animAdjEnd cw s e
  (arcThetas s e2).map (fun θ => (cX + r * Real.cos θ, cY + r * Real.sin θ))

/-- The standalone helper `get_arc_points` (defined in the source but
not called by `simulate_gcode`): zero radius falls back to the straight
two-point segment, a clockwise arc subtracts 2 pi when the end angle is
not below the start angle, and a same-point command is forced to a full
circle. -/
def get_arc_points (cx0 cy0 tx ty i j : ℝ) (cw : Bool) : List (ℝ × ℝ) :=
  let cX := cx0 + i
  let cY := cy0 + j
  let r := Real.sqrt (i ^ 2 + j ^ 2)
  if isclose r 0 then [(cx0, cy0), (tx, ty)]
  else
    let s := atan2 (cy0 - cY) (cx0 - cX)
    let e := atan2 (ty - cY) (tx - cX)
    let e2 := if cw then (if s ≤ e then e - 2 * Real.pi else e)
              else (if e ≤ s then e + 2 * Real.pi else e)
    let e3 := if isclose cx0 tx ∧ isclose cy0 ty then
                (if cw then s - 2 * Real.pi else s + 2 * Real.pi)
              else e2
    (arcThetas s e3).map (fun θ => (cX + r * Real.cos θ, cY + r * Real.sin θ))

/-- State of the animation (flattening) pass: current tool position and
the points collected so far. -/
structure SimSt where
  x : ℝ
  y : ℝ
  z : ℝ
  pts : List (ℝ × ℝ)

/-- One step of the animation pass of `simulate_gcode`: rapid and
linear moves append their target (with modal carry-over of omitted
axes), arcs append 21 sampled points, all other lines (header/footer
setup codes and comments) contribute nothing. -/
def animStep (st : SimSt) : GLine → SimSt
  | g00xy px py => ⟨px, py, st.z, st.pts ++ [(px, py)]⟩
  | g00z pz => ⟨st.x, st.y, pz, st.pts ++ [(st.x, st.y)]⟩
  | g01zf pz _ => ⟨st.x, st.y, pz, st.pts ++ [(st.x, st.y)]⟩
  | g01xyf px py _ => ⟨px, py, st.z, st.pts ++ [(px, py)]⟩
  | g02xyijf px py i j _ =>
      ⟨px, py, st.z, st.pts ++ animArcPoints st.x st.y px py i j true⟩
  | _ => st

/-- The raw animation point list of a program (`tool_path_points`),
starting from the origin. -/
def animPts (prog : List GLine) : List (ℝ × ℝ) :=
  (prog.foldl animStep ⟨0, 0, 0, []⟩).pts

/-- Python `pts[-1] = v` on a non-empty list. -/
def setLast (pts : List (ℝ × ℝ)) (v : ℝ × ℝ) : List (ℝ × ℝ) :=
  pts.dropLast ++ [v]

/-- The post-processing of the animation point list in
`simulate_gcode`: pad an empty list with the origin, translate
everything when a non-zero custom start point was requested, then
unconditionally overwrite the last point with the requested end
point. -/
def postProcess (pts : List (ℝ × ℝ)) (sx sy ex ey : ℝ) : List (ℝ × ℝ) :=
  let pts1 := match pts with
    | [] => [((0 : ℝ), (0 : ℝ))]
    | l => l
  let pts2 :=
    if sx ≠ 0 ∨ sy ≠ 0 then
      match pts1 with
      | [] => pts1
      | p :: _ => pts1.map (fun q => (q.1 + (sx - p.1), q.2 + (sy - p.2)))
    else pts1
  setLast pts2 (ex, ey)

/-- The animation path produced by `simulate_gcode` for a program. -/
def animationPath (prog : List GLine) (sx sy ex ey : ℝ) : List (ℝ × ℝ) :=
  postProcess (animPts prog) sx sy ex ey

/-! ### Helper lemmas -/

lemma filter_isArc_maybeRapid (cur : Option Pos) (sx sy : ℝ) :
    (maybeRapid cur sx sy).filter isArc = [] := by
  unfold maybeRapid
  cases cur with
  | none => simp [isArc]
  | some c => split <;> simp [isArc]

lemma filter_isComment_maybeRapid (cur : Option Pos) (sx sy : ℝ) :
    (maybeRapid cur sx sy).filter isComment = [] := by
  unfold maybeRapid
  cases cur with
  | none => simp [isComment]
  | some c => split <;> simp [isComment]

lemma xLitsLine_offsetLine (dx dy : ℝ) (l : GLine) :
    xLitsLine (offsetLine dx dy l) = (xLitsLine l).map (fun v => v + dx) := by
  cases l <;> simp [xLitsLine, offsetLine]

lemma yLitsLine_offsetLine (dx dy : ℝ) (l : GLine) :
    yLitsLine (offsetLine dx dy l) = (yLitsLine l).map (fun v => v + dy) := by
  cases l <;> simp [yLitsLine, offsetLine]

lemma xLits_map_offsetLine (dx dy : ℝ) (p : List GLine) :
    xLits (p.map (offsetLine dx dy)) = (xLits p).map (fun v => v + dx) := by
  induction p with
  | nil => simp [xLits]
  | cons l ls ih => simp [xLits, xLitsLine_offsetLine, ih]; simpa [xLits] using ih

lemma yLits_map_offsetLine (dx dy : ℝ) (p : List GLine) :
    yLits (p.map (offsetLine dx dy)) = (yLits p).map (fun v => v + dy) := by
  induction p with
  | nil => simp [yLits]
  | cons l ls ih => simp [yLits, yLitsLine_offsetLine, ih]; simpa [yLits] using ih

lemma filter_isArc_segCmds (fxy : ℝ) (pr : PolyVertex × PolyVertex) :
    (segCmds fxy pr).filter isArc = [] := by
  unfold segCmds; split <;> simp [isArc]

lemma getLast?_cons_append_singleton {α : Type} (a x : α) (l : List α) :
    (a :: (l ++ [x])).getLast? = some x := by
  rw [← List.cons_append]
  exact List.getLast?_concat _

/-! ### Claim theorems -/

/-- C1.  For every CircularArc, after normalising the start and end
angles into `[0, 360)` and taking `ccw_sweep = (end - start) mod 360`:
if `ccw_sweep <= 180` the converter emits exactly one clockwise arc
command targeting the arc's end point with centre offset
`(i, j) = center - start`; if `ccw_sweep > 180` it emits exactly two
clockwise arc commands, split at the point 180 degrees
counter-clockwise from the start, each with the centre offset taken
relative to its own segment start. -/
theorem c1_arc_segmentation (cx cy r sa ea : ℝ) (cur : Option Pos)
    (fxy fz sz cz : ℝ) :
    ((arc_to_gcode cx cy r sa ea cur fxy fz sz cz).1.filter isArc) =
      (if norm360 (norm360 ea - norm360 sa) ≤ 180 then
        [GLine.g02xyijf (onCircle cx cy r (norm360 ea)).1
          (onCircle cx cy r (norm360 ea)).2
          (cx - (onCircle cx cy r (norm360 sa)).1)
          (cy - (onCircle cx cy r (norm360 sa)).2) fxy]
      else
        [GLine.g02xyijf (onCircle cx cy r (norm360 (norm360 sa + 180))).1
          (onCircle cx cy r (norm360 (norm360 sa + 180))).2
          (cx - (onCircle cx cy r (norm360 sa)).1)
          (cy - (onCircle cx cy r (norm360 sa)).2) fxy,
         GLine.g02xyijf (onCircle cx cy r (norm360 ea)).1
          (onCircle cx cy r (norm360 ea)).2
          (cx - (onCircle cx cy r (norm360 (norm360 sa + 180))).1)
          (cy - (onCircle cx cy r (norm360 (norm360 sa + 180))).2) fxy]) := by
  by_cases h : norm360 (norm360 ea - norm360 sa) ≤ 180 <;>
    simp [arc_to_gcode, arcSegments, h, isArc, List.filter_append,
      filter_isArc_maybeRapid]

/-- C6.  For every Circle, the converter emits exactly two clockwise
semicircle arc commands (never a single full-circle command), split at
the diametrically opposite x-axis points `(cx - r, cy)` and
`(cx + r, cy)`, and the target of the second arc returns to the start
point of the first within `1e-6`. -/
theorem c6_circle_two_semicircles (cx cy r : ℝ) (cur : Option Pos)
    (fxy fz sz cz : ℝ) :
    ((circle_to_gcode cx cy r cur fxy fz sz cz).1.filter isArc) =
      [GLine.g02xyijf (cx + r) cy r 0 fxy,
       GLine.g02xyijf (cx - r) cy (-r) 0 fxy] ∧
    (circle_to_gcode cx cy r cur fxy fz sz cz).1 =
      maybeRapid cur (cx - r) cy ++
        [GLine.g01zf cz fz,
         GLine.g02xyijf (cx + r) cy r 0 fxy,
         GLine.g02xyijf (cx - r) cy (-r) 0 fxy,
         GLine.g00z sz] ∧
    Real.sqrt (((cx - r) - (cx - r)) ^ 2 + (cy - cy) ^ 2) ≤ 1 / 10 ^ 6 := by
  refine ⟨?_, ?_, ?_⟩
  · simp [circle_to_gcode, isArc, List.filter_append, filter_isArc_maybeRapid]
  · simp [circle_to_gcode]
  · simp

/-- C5.  The global offset pass with offset `(0, 0)` is a no-op (so
applying it twice changes nothing), and applying it with a non-zero
offset `(dx, dy)` adds exactly `dx` to every numeric literal following
an `X` token and `dy` to every literal following a `Y` token over the
whole program; in particular the footer's home move `G00 X0 Y0` is also
offset. -/
theorem c5_offset_pass (p : List GLine) (dx dy sz : ℝ) :
    offsetPass 0 0 p = p ∧
    offsetPass 0 0 (offsetPass 0 0 p) = p ∧
    (dx ≠ 0 ∨ dy ≠ 0 →
      xLits (offsetPass dx dy p) = (xLits p).map (fun v => v + dx) ∧
      yLits (offsetPass dx dy p) = (yLits p).map (fun v => v + dy) ∧
      offsetPass dx dy (generate_gcode_footer sz) =
        [GLine.g00z sz, GLine.m5, GLine.g00xy dx dy, GLine.m2]) := by
  refine ⟨by simp [offsetPass], by simp [offsetPass], fun h => ⟨?_, ?_, ?_⟩⟩
  · rw [offsetPass, if_pos h, xLits_map_offsetLine]
  · rw [offsetPass, if_pos h, yLits_map_offsetLine]
  · rw [offsetPass, if_pos h]
    simp [generate_gcode_footer, offsetLine]

/-- Witness for C5 at a concrete non-zero offset. -/
theorem c5_offset_pass_witness :
    ((1 : ℝ) ≠ 0 ∨ (2 : ℝ) ≠ 0) ∧
    (xLits (offsetPass 1 2 [GLine.g00xy 3 4]) =
      (xLits [GLine.g00xy 3 4]).map (fun v => v + 1) ∧
     yLits (offsetPass 1 2 [GLine.g00xy 3 4]) =
      (yLits [GLine.g00xy 3 4]).map (fun v => v + 2) ∧
     offsetPass 1 2 (generate_gcode_footer 5) =
      [GLine.g00z 5, GLine.m5, GLine.g00xy 1 2, GLine.m2]) :=
  ⟨Or.inl one_ne_zero,
   (c5_offset_pass [GLine.g00xy 3 4] 1 2 5).2.2 (Or.inl one_ne_zero)⟩

/-- C7.  A polyline segment with non-zero bulge is not converted to an
arc: it is emitted as a warning comment followed by a straight linear
move to the next vertex, the whole polyline conversion never emits an
arc command, and the warning comment is present in the output for every
bulged segment (the conversion does not abort). -/
theorem c7_bulge_discarded (fxy fz sz cz : ℝ) (cur : Option Pos)
    (pts : List PolyVertex) (p q : PolyVertex) :
    (p.2.2 ≠ 0 → segCmds fxy (p, q) =
      [GLine.commentBulge p.1 p.2.1 q.1 q.2.1,
       GLine.g01xyf q.1 q.2.1 fxy]) ∧
    (lwpolyline_to_gcode pts cur fxy fz sz cz).1.filter isArc = [] ∧
    (∀ pr ∈ pts.zip pts.tail, pr.1.2.2 ≠ 0 →
      GLine.commentBulge pr.1.1 pr.1.2.1 pr.2.1 pr.2.2.1 ∈
        (lwpolyline_to_gcode pts cur fxy fz sz cz).1) := by
  refine ⟨fun h => by simp [segCmds, h], ?_, ?_⟩
  · cases pts with
    | nil => simp [lwpolyline_to_gcode]
    | cons p0 rest =>
      simp only [lwpolyline_to_gcode, List.filter_append,
        filter_isArc_maybeRapid, List.filter_cons, List.nil_append]
      have hflat : (((p0 :: rest).zip rest).flatMap (segCmds fxy)).filter
          isArc = [] := by
        induction ((p0 :: rest).zip rest) with
        | nil => simp
        | cons a l ih => simp [List.filter_append, filter_isArc_segCmds, ih]
      simp [isArc, hflat]
  · intro pr hpr hb
    cases pts with
    | nil => simp at hpr
    | cons p0 rest =>
      have hmem : GLine.commentBulge pr.1.1 pr.1.2.1 pr.2.1 pr.2.2.1 ∈
          ((p0 :: rest).zip rest).flatMap (segCmds fxy) := by
        refine List.mem_flatMap.mpr ⟨pr, ?_, ?_⟩
        · simpa using hpr
        · simp [segCmds, hb]
      simp only [lwpolyline_to_gcode]
      simp [hmem]

/-- Witness for C7 at a two-vertex polyline whose first segment has
bulge 1. -/
theorem c7_bulge_discarded_witness :
    (((0 : ℝ), (0 : ℝ), (1 : ℝ)) : PolyVertex).2.2 ≠ 0 ∧
    segCmds 300 (((0 : ℝ), (0 : ℝ), (1 : ℝ)), ((5 : ℝ), (5 : ℝ), (0 : ℝ))) =
      [GLine.commentBulge 0 0 5 5, GLine.g01xyf 5 5 300] ∧
    (lwpolyline_to_gcode [((0 : ℝ), (0 : ℝ), (1 : ℝ)), ((5 : ℝ), (5 : ℝ), (0 : ℝ))]
      none 300 100 5 (-3 / 10)).1.filter isArc = [] ∧
    GLine.commentBulge 0 0 5 5 ∈
      (lwpolyline_to_gcode [((0 : ℝ), (0 : ℝ), (1 : ℝ)), ((5 : ℝ), (5 : ℝ), (0 : ℝ))]
        none 300 100 5 (-3 / 10)).1 := by
  have h := c7_bulge_discarded 300 100 5 (-3 / 10) none
    [((0 : ℝ), (0 : ℝ), (1 : ℝ)), ((5 : ℝ), (5 : ℝ), (0 : ℝ))]
    ((0 : ℝ), (0 : ℝ), (1 : ℝ)) ((5 : ℝ), (5 : ℝ), (0 : ℝ))
  refine ⟨by norm_num, h.1 (by norm_num), h.2.1, ?_⟩
  exact h.2.2 (((0 : ℝ), (0 : ℝ), (1 : ℝ)), ((5 : ℝ), (5 : ℝ), (0 : ℝ)))
    (by simp) (by norm_num)

/-- C10.  Every recognised entity's command block ends with a rapid
retract to `safe_z` and the returned tool state is the entity's final
XY point at `safe_z`; an empty polyline emits nothing and returns the
tool state unchanged. -/
theorem c10_retract_invariant (x1 y1 x2 y2 cx cy r sa ea fxy fz sz cz : ℝ)
    (cur : Option Pos) :
    ((line_to_gcode x1 y1 x2 y2 cur fxy fz sz cz).1.getLast? =
        some (GLine.g00z sz) ∧
     (line_to_gcode x1 y1 x2 y2 cur fxy fz sz cz).2 = some (x2, y2, sz)) ∧
    ((arc_to_gcode cx cy r sa ea cur fxy fz sz cz).1.getLast? =
        some (GLine.g00z sz) ∧
     (arc_to_gcode cx cy r sa ea cur fxy fz sz cz).2 =
        some ((onCircle cx cy r (norm360 ea)).1,
          (onCircle cx cy r (norm360 ea)).2, sz)) ∧
    ((circle_to_gcode cx cy r cur fxy fz sz cz).1.getLast? =
        some (GLine.g00z sz) ∧
     (circle_to_gcode cx cy r cur fxy fz sz cz).2 = some (cx - r, cy, sz)) ∧
    (∀ pts : List PolyVertex, pts ≠ [] →
      (lwpolyline_to_gcode pts cur fxy fz sz cz).1.getLast? =
        some (GLine.g00z sz) ∧
      (lwpolyline_to_gcode pts cur fxy fz sz cz).2 =
        pts.getLast?.map (fun v => (v.1, v.2.1, sz))) ∧
    lwpolyline_to_gcode [] cur fxy fz sz cz = ([], cur) := by
  refine ⟨⟨?_, rfl⟩, ⟨?_, rfl⟩, ⟨?_, rfl⟩, ?_, rfl⟩
  · simp [line_to_gcode]
  · simp [arc_to_gcode, getLast?_cons_append_singleton]
  · simp [circle_to_gcode]
  · intro pts hne
    cases pts with
    | nil => exact absurd rfl hne
    | cons p0 rest =>
      constructor
      · simp [lwpolyline_to_gcode, getLast?_cons_append_singleton]
      · simp [lwpolyline_to_gcode,
          List.getLast?_eq_getLast (p0 :: rest) (List.cons_ne_nil p0 rest)]

/-- Witness for C10 at a concrete non-empty polyline. -/
theorem c10_retract_invariant_witness :
    ([((1 : ℝ), (2 : ℝ), (0 : ℝ))] : List PolyVertex) ≠ [] ∧
    ((lwpolyline_to_gcode [((1 : ℝ), (2 : ℝ), (0 : ℝ))] none 300 100 5
        (-3 / 10)).1.getLast? = some (GLine.g00z 5) ∧
     (lwpolyline_to_gcode [((1 : ℝ), (2 : ℝ), (0 : ℝ))] none 300 100 5
        (-3 / 10)).2 =
       ([((1 : ℝ), (2 : ℝ), (0 : ℝ))] : List PolyVertex).getLast?.map
         (fun v => (v.1, v.2.1, 5))) :=
  ⟨by simp,
   (c10_retract_invariant 0 0 0 0 0 0 0 0 0 300 100 5 (-3 / 10)
      none).2.2.2.1 [((1 : ℝ), (2 : ℝ), (0 : ℝ))] (by simp)⟩

lemma getElem?_setLast (pts : List (ℝ × ℝ)) (v : ℝ × ℝ) (i : ℕ)
    (h : i + 1 < pts.length) : (setLast pts v)[i]? = pts[i]? := by
  unfold setLast
  rw [List.getElem?_append_left (by rw [List.length_dropLast]; omega),
    List.dropLast_eq_take, List.getElem?_take]
  rw [if_pos (by omega)]

/-- C9.  The animation post-processing operates only on the flattened
point list: with a non-zero requested start point every point is
translated by the requested start minus the original first point, and
in every case the last point is then overwritten with exactly the
requested end point.  The length of the list is preserved. -/
theorem c9_animation_postprocess (pts : List (ℝ × ℝ)) (sx sy ex ey : ℝ)
    (h : pts ≠ []) :
    (postProcess pts sx sy ex ey).length = pts.length ∧
    (postProcess pts sx sy ex ey).getLast? = some (ex, ey) ∧
    ((sx ≠ 0 ∨ sy ≠ 0) → ∀ i, i + 1 < pts.length →
      (postProcess pts sx sy ex ey)[i]? =
        pts[i]?.map (fun q =>
          (q.1 + (sx - (pts.head h).1), q.2 + (sy - (pts.head h).2)))) ∧
    (¬(sx ≠ 0 ∨ sy ≠ 0) → ∀ i, i + 1 < pts.length →
      (postProcess pts sx sy ex ey)[i]? = pts[i]?) := by
  cases pts with
  | nil => exact absurd rfl h
  | cons p0 rest =>
    by_cases hc : sx ≠ 0 ∨ sy ≠ 0
    · have hp : postProcess (p0 :: rest) sx sy ex ey =
          setLast ((p0 :: rest).map
            (fun q => (q.1 + (sx - p0.1), q.2 + (sy - p0.2)))) (ex, ey) := by
        unfold postProcess
        simp [hc]
      refine ⟨?_, ?_, ?_, fun hnc => absurd hc hnc⟩
      · rw [hp]; simp [setLast]
      · rw [hp]; unfold setLast; exact List.getLast?_concat _
      · intro _ i hi
        rw [hp, getElem?_setLast _ _ i (by simpa using hi), List.getElem?_map]
        simp
    · have hp : postProcess (p0 :: rest) sx sy ex ey =
          setLast (p0 :: rest) (ex, ey) := by
        unfold postProcess
        simp [hc]
      refine ⟨?_, ?_, fun hcc => absurd hcc hc, ?_⟩
      · rw [hp]; simp [setLast]
      · rw [hp]; unfold setLast; exact List.getLast?_concat _
      · intro _ i hi
        rw [hp, getElem?_setLast _ _ i hi]

/-- Witness for C9 on a concrete two-point list with a non-zero
requested start. -/
theorem c9_animation_postprocess_witness :
    ([((1 : ℝ), (1 : ℝ)), ((2 : ℝ), (2 : ℝ))] : List (ℝ × ℝ)) ≠ [] ∧
    ((postProcess [((1 : ℝ), (1 : ℝ)), ((2 : ℝ), (2 : ℝ))] 5 5 9 9).length =
      ([((1 : ℝ), (1 : ℝ)), ((2 : ℝ), (2 : ℝ))] : List (ℝ × ℝ)).length ∧
     (postProcess [((1 : ℝ), (1 : ℝ)), ((2 : ℝ), (2 : ℝ))] 5 5 9 9).getLast? =
      some (9, 9)) := by
  have h : ([((1 : ℝ), (1 : ℝ)), ((2 : ℝ), (2 : ℝ))] : List (ℝ × ℝ)) ≠ [] := by
    simp
  have hm := c9_animation_postprocess
    [((1 : ℝ), (1 : ℝ)), ((2 : ℝ), (2 : ℝ))] 5 5 9 9 h
  exact ⟨h, hm.1, hm.2.1⟩

/-! ### C2: arc direction adjustment in the interpreter -/

lemma atan2_range (y x : ℝ) : -Real.pi < atan2 y x ∧ atan2 y x ≤ Real.pi := by
  have hpi := Real.pi_pos
  have h1 : -(Real.pi / 2) < Real.arctan (y / x) :=
    Real.neg_pi_div_two_lt_arctan (y / x)
  have h2 : Real.arctan (y / x) < Real.pi / 2 :=
    Real.arctan_lt_pi_div_two (y / x)
  unfold atan2
  split_ifs with hx hx2 hy hy1 hy2
  · constructor <;> linarith
  · have hyx : y / x ≤ 0 := div_nonpos_of_nonneg_of_nonpos hy (le_of_lt hx2)
    have h3 : Real.arctan (y / x) ≤ 0 := by
      rw [← Real.arctan_zero]
      exact Real.arctan_strictMono.monotone hyx
    constructor <;> linarith
  · have hyx : 0 < y / x := div_pos_iff.mpr (Or.inr ⟨by linarith, hx2⟩)
    have h3 : 0 < Real.arctan (y / x) := by
      rw [← Real.arctan_zero]
      exact Real.arctan_strictMono hyx
    constructor <;> linarith
  · constructor <;> linarith
  · constructor <;> linarith
  · constructor <;> linarith

lemma plotAdjEnd_cw_eq (s e : ℝ) (hs2 : s ≤ Real.pi) (he1 : -Real.pi < e) :
    plotAdjEnd true s e = (if e ≤ s then e + 2 * Real.pi else e) := by
  have hpi := Real.pi_pos
  simp only [plotAdjEnd, if_true]
  split_ifs with h1 h2 h3 h4 h5 <;> linarith

lemma plotAdjEnd_ccw_eq (s e : ℝ) (hs1 : -Real.pi < s) (he2 : e ≤ Real.pi) :
    plotAdjEnd false s e = (if s ≤ e then e - 2 * Real.pi else e) := by
  have hpi := Real.pi_pos
  simp only [plotAdjEnd, Bool.false_eq_true, if_false]
  split_ifs with h1 h2 h3 h4 h5 <;> linarith

lemma arcThetas_pairwise_lt (s e : ℝ) (h : s < e) :
    (arcThetas s e).Pairwise (fun a b => a < b) := by
  unfold arcThetas
  have hstep : ∀ a b : ℕ, a < b →
      (fun k : ℕ => s + (e - s) * k / 20) a <
        (fun k : ℕ => s + (e - s) * k / 20) b := by
    intro a b hab
    simp only
    have hab2 : (a : ℝ) < (b : ℝ) := by exact_mod_cast hab
    have hpos : 0 < e - s := by linarith
    have h3 : (e - s) * a < (e - s) * b := mul_lt_mul_of_pos_left hab2 hpos
    linarith
  exact List.Pairwise.map (fun k : ℕ => s + (e - s) * k / 20) hstep
    (List.pairwise_lt_range 21)

lemma arcThetas_pairwise_gt (s e : ℝ) (h : e < s) :
    (arcThetas s e).Pairwise (fun a b => b < a) := by
  unfold arcThetas
  have hstep : ∀ a b : ℕ, a < b →
      (fun k : ℕ => s + (e - s) * k / 20) b <
        (fun k : ℕ => s + (e - s) * k / 20) a := by
    intro a b hab
    simp only
    have hab2 : (a : ℝ) < (b : ℝ) := by exact_mod_cast hab
    have hneg : e - s < 0 := by linarith
    have h3 : (e - s) * b < (e - s) * a := mul_lt_mul_of_neg_left hab2 hneg
    linarith
  exact List.Pairwise.map (fun k : ℕ => s + (e - s) * k / 20) hstep
    (List.pairwise_lt_range 21)

/-- C2 (amended).  In the interpreter's arc reconstruction the
directional adjustment is the reverse of the claim: for a clockwise
`G02` command, 2 pi is ADDED when the end angle (an `atan2` value) is
at most the start angle, so the sampled sweep is strictly increasing in
the plotting pass and non-decreasing in the animation pass; for a
counter-clockwise `G03` command, 2 pi is SUBTRACTED when the end angle
is at least the start angle, so the sweep is strictly decreasing
(plotting pass) and non-increasing (animation pass). -/
theorem c2_arc_adjust_amended (y1 x1 y2 x2 : ℝ) :
    plotAdjEnd true (atan2 y1 x1) (atan2 y2 x2) =
      (if atan2 y2 x2 ≤ atan2 y1 x1 then atan2 y2 x2 + 2 * Real.pi
       else atan2 y2 x2) ∧
    atan2 y1 x1 < plotAdjEnd true (atan2 y1 x1) (atan2 y2 x2) ∧
    plotAdjEnd false (atan2 y1 x1) (atan2 y2 x2) =
      (if atan2 y1 x1 ≤ atan2 y2 x2 then atan2 y2 x2 - 2 * Real.pi
       else atan2 y2 x2) ∧
    plotAdjEnd false (atan2 y1 x1) (atan2 y2 x2) < atan2 y1 x1 ∧
    atan2 y1 x1 ≤ animAdjEnd true (atan2 y1 x1) (atan2 y2 x2) ∧
    animAdjEnd false (atan2 y1 x1) (atan2 y2 x2) ≤ atan2 y1 x1 ∧
    (arcThetas (atan2 y1 x1)
      (plotAdjEnd true (atan2 y1 x1) (atan2 y2 x2))).Pairwise
        (fun a b => a < b) ∧
    (arcThetas (atan2 y1 x1)
      (plotAdjEnd false (atan2 y1 x1) (atan2 y2 x2))).Pairwise
        (fun a b => b < a) := by
  have hpi := Real.pi_pos
  obtain ⟨hs1, hs2⟩ := atan2_range y1 x1
  obtain ⟨he1, he2⟩ := atan2_range y2 x2
  set s := atan2 y1 x1
  set e := atan2 y2 x2
  have hcw := plotAdjEnd_cw_eq s e hs2 he1
  have hccw := plotAdjEnd_ccw_eq s e hs1 he2
  have hcwgt : s < plotAdjEnd true s e := by
    rw [hcw]; split_ifs with h <;> linarith
  have hccwlt : plotAdjEnd false s e < s := by
    rw [hccw]; split_ifs with h <;> linarith
  refine ⟨hcw, hcwgt, hccw, hccwlt, ?_, ?_, ?_, ?_⟩
  · unfold animAdjEnd
    simp only [if_true]
    split_ifs with h <;> linarith
  · unfold animAdjEnd
    simp only [Bool.false_eq_true, if_false]
    split_ifs with h <;> linarith
  · exact arcThetas_pairwise_lt s _ hcwgt
  · exact arcThetas_pairwise_gt s _ hccwlt

/-- C2 counterexample.  From the current position `(0, 0)`, the command
`G02 X0 Y10 I0 J5` has centre `(0, 5)`, start angle
`atan2 (0 - 5) (0 - 0) = -pi/2` and end angle
`atan2 (10 - 5) (0 - 0) = pi/2`; the end angle is at least the start
angle, yet neither pass subtracts 2 pi: the adjusted end angle stays
`pi/2`, which differs from `pi/2 - 2 pi`, and the sweep is not
decreasing. -/
theorem c2_arc_adjust_counterexample :
    atan2 ((0 : ℝ) - 5) (0 - 0) = -(Real.pi / 2) ∧
    atan2 ((10 : ℝ) - 5) (0 - 0) = Real.pi / 2 ∧
    atan2 ((0 : ℝ) - 5) (0 - 0) ≤ atan2 ((10 : ℝ) - 5) (0 - 0) ∧
    plotAdjEnd true (atan2 ((0 : ℝ) - 5) (0 - 0))
      (atan2 ((10 : ℝ) - 5) (0 - 0)) = Real.pi / 2 ∧
    animAdjEnd true (atan2 ((0 : ℝ) - 5) (0 - 0))
      (atan2 ((10 : ℝ) - 5) (0 - 0)) = Real.pi / 2 ∧
    Real.pi / 2 ≠ Real.pi / 2 - 2 * Real.pi ∧
    ¬ plotAdjEnd true (atan2 ((0 : ℝ) - 5) (0 - 0))
        (atan2 ((10 : ℝ) - 5) (0 - 0)) < atan2 ((0 : ℝ) - 5) (0 - 0) := by
  have hpi := Real.pi_pos
  have hs : atan2 ((0 : ℝ) - 5) (0 - 0) = -(Real.pi / 2) := by
    unfold atan2; norm_num
  have he : atan2 ((10 : ℝ) - 5) (0 - 0) = Real.pi / 2 := by
    unfold atan2; norm_num
  have hcw : plotAdjEnd true (-(Real.pi / 2)) (Real.pi / 2) = Real.pi / 2 := by
    rw [plotAdjEnd_cw_eq (-(Real.pi / 2)) (Real.pi / 2) (by linarith)
      (by linarith)]
    rw [if_neg (by linarith)]
  have hanim : animAdjEnd true (-(Real.pi / 2)) (Real.pi / 2) =
      Real.pi / 2 := by
    simp only [animAdjEnd, if_true]
    rw [if_neg (by linarith)]
  refine ⟨hs, he, ?_, ?_, ?_, ?_, ?_⟩
  · rw [hs, he]; linarith
  · rw [hs, he, hcw]
  · rw [hs, he, hanim]
  · intro hcontra; linarith
  · rw [hs, he, hcw]; intro hcontra; linarith

/-! ### C8: zero-radius arcs -/

lemma onCircle_zero_radius (cx cy θ : ℝ) : onCircle cx cy 0 θ = (cx, cy) := by
  simp [onCircle]

/-- C8 (amended).  A zero-radius CircularArc is accepted by the
converter without a fatal error, but NO warning comment is emitted: the
output is the normal positioning/plunge/arc/retract block whose arc
commands all target the centre with offsets `I0 J0`.  In the
interpreter (`simulate_gcode`), a zero-radius arc command does not fall
back to a straight line to the target: the animation pass appends 21
copies of the current position.  Only the unused helper
`get_arc_points` implements the claimed two-point straight-line
fallback. -/
theorem c8_zero_radius_amended (cx cy sa ea fxy fz sz cz tx ty x0 y0 : ℝ)
    (cur : Option Pos) (cw : Bool) :
    (arc_to_gcode cx cy 0 sa ea cur fxy fz sz cz).1 =
      maybeRapid cur cx cy ++
        GLine.g01zf cz fz ::
          (if norm360 (norm360 ea - norm360 sa) ≤ 180 then
            [GLine.g02xyijf cx cy 0 0 fxy]
          else
            [GLine.g02xyijf cx cy 0 0 fxy, GLine.g02xyijf cx cy 0 0 fxy]) ++
        [GLine.g00z sz] ∧
    (arc_to_gcode cx cy 0 sa ea cur fxy fz sz cz).1.filter isComment = [] ∧
    (arc_to_gcode cx cy 0 sa ea cur fxy fz sz cz).2 = some (cx, cy, sz) ∧
    get_arc_points x0 y0 tx ty 0 0 cw = [(x0, y0), (tx, ty)] ∧
    animArcPoints x0 y0 tx ty 0 0 cw = List.replicate 21 (x0, y0) := by
  have hseg : arcSegments cx cy 0 sa ea =
      (if norm360 (norm360 ea - norm360 sa) ≤ 180 then
        [(cx, cy, (0 : ℝ), (0 : ℝ))]
      else [(cx, cy, (0 : ℝ), (0 : ℝ)), (cx, cy, (0 : ℝ), (0 : ℝ))]) := by
    unfold arcSegments
    simp [onCircle_zero_radius]
  refine ⟨?_, ?_, ?_, ?_, ?_⟩
  · unfold arc_to_gcode
    rw [hseg]
    simp [onCircle_zero_radius]
    split_ifs <;> simp
  · unfold arc_to_gcode
    rw [hseg]
    simp only [List.filter_append, filter_isComment_maybeRapid,
      List.nil_append]
    split_ifs <;> simp [isComment]
  · unfold arc_to_gcode
    simp [onCircle_zero_radius]
  · unfold get_arc_points
    rw [if_pos]
    simp [isclose]
  · unfold animArcPoints
    have hr : Real.sqrt ((0 : ℝ) ^ 2 + 0 ^ 2) = 0 := by
      norm_num
    rw [hr]
    simp only [zero_mul, add_zero]
    rw [List.map_const']
    congr 1

/-- C8 counterexample.  The zero-radius arc with centre `(2, 3)` from
0 to 90 degrees is converted without any warning comment (refuting
`produces a warning comment command in the output`), and interpreting
the zero-radius command `G02 X5 Y0 I0 J0` from `(0, 0)` yields 21
copies of `(0, 0)` whose last point is not the target `(5, 0)`
(refuting the straight-line fallback in the interpreter). -/
theorem c8_zero_radius_counterexample :
    (arc_to_gcode 2 3 0 0 90 none 300 100 5 (-3 / 10)).1.filter isComment =
      [] ∧
    (arc_to_gcode 2 3 0 0 90 none 300 100 5 (-3 / 10)).1 =
      [GLine.g00xy 2 3, GLine.g01zf (-3 / 10) 100,
       GLine.g02xyijf 2 3 0 0 300, GLine.g00z 5] ∧
    (animArcPoints 0 0 5 0 0 0 true).getLast? = some ((0 : ℝ), (0 : ℝ)) ∧
    (((0 : ℝ), (0 : ℝ)) : ℝ × ℝ) ≠ ((5 : ℝ), (0 : ℝ)) := by
  have h := c8_zero_radius_amended 2 3 0 90 300 100 5 (-3 / 10) 5 0 0 0
    none true
  have hccw : norm360 (norm360 (90 : ℝ) - norm360 0) ≤ 180 := by
    unfold norm360
    norm_num
  refine ⟨h.2.1, ?_, ?_, by norm_num [Prod.ext_iff]⟩
  · rw [h.1, if_pos hccw]
    simp [maybeRapid]
  · rw [h.2.2.2.2]
    simp [List.getLast?_replicate]

/-! ### C3: round-trip of a single line segment -/

lemma singleLineProgram_no_override_eq (x1 y1 x2 y2 fxy fz sz cz : ℝ) :
    singleLineProgram x1 y1 x2 y2 fxy fz sz cz 0 0 0 0 0 0 =
      [GLine.g21, GLine.g90, GLine.g17, GLine.m3s, GLine.g00z sz,
       GLine.g00xy 0 0, GLine.g01zf cz fz, GLine.g01xyf 0 0 fxy,
       GLine.g00z sz, GLine.g00z sz, GLine.m5, GLine.g00xy 0 0,
       GLine.m2] := by
  unfold singleLineProgram dxf_assemble
  simp [offsetPass, generate_gcode_header, generate_gcode_footer,
    line_to_gcode, maybeRapid, overrideFirst, overrideLast, hasXY, hasX,
    hasY, setXY]

lemma animationPath_singleLine (x1 y1 x2 y2 fxy fz sz cz : ℝ) :
    animationPath (singleLineProgram x1 y1 x2 y2 fxy fz sz cz 0 0 0 0 0 0)
        0 0 0 0 =
      [((0 : ℝ), (0 : ℝ)), (0, 0), (0, 0), (0, 0), (0, 0), (0, 0),
       (0, 0)] := by
  rw [singleLineProgram_no_override_eq]
  simp [animationPath, animPts, animStep, postProcess, setLast]

/-- C3 (amended).  Interpreting the program generated for a single
LineSegment with no start/end override requested (the `(0, 0)`
sentinel) yields an AnimationPath whose first point is `(0, 0)` (the
interpreter's initial tool position, recorded at the header's first
`G00 Z` move) and whose last point is `(0, 0)` (the requested end
override, applied both to the generated text and to the point list);
the path equals the line's own start and end only when those are the
origin. -/
theorem c3_line_roundtrip_amended (x1 y1 x2 y2 fxy fz sz cz : ℝ) :
    (animationPath (singleLineProgram x1 y1 x2 y2 fxy fz sz cz 0 0 0 0 0 0)
        0 0 0 0).head? = some ((0 : ℝ), (0 : ℝ)) ∧
    (animationPath (singleLineProgram x1 y1 x2 y2 fxy fz sz cz 0 0 0 0 0 0)
        0 0 0 0).getLast? = some ((0 : ℝ), (0 : ℝ)) := by
  rw [animationPath_singleLine]
  constructor <;> rfl

/-- C3 counterexample.  For the single LineSegment from `(1, 2)` to
`(3, 4)` (feeds 300/100, safe Z 5, cut Z -0.3, no offsets, no
overrides) the interpreted AnimationPath starts and ends at `(0, 0)`,
which differs from the line's start `(1, 2)` and end `(3, 4)` by far
more than any tolerance of `1e-6`. -/
theorem c3_line_roundtrip_counterexample :
    (animationPath (singleLineProgram 1 2 3 4 300 100 5 (-3 / 10)
        0 0 0 0 0 0) 0 0 0 0).head? = some ((0 : ℝ), (0 : ℝ)) ∧
    ¬(|(0 : ℝ) - 1| ≤ 1 / 10 ^ 6 ∧ |(0 : ℝ) - 2| ≤ 1 / 10 ^ 6) ∧
    (animationPath (singleLineProgram 1 2 3 4 300 100 5 (-3 / 10)
        0 0 0 0 0 0) 0 0 0 0).getLast? = some ((0 : ℝ), (0 : ℝ)) ∧
    ¬(|(0 : ℝ) - 3| ≤ 1 / 10 ^ 6 ∧ |(0 : ℝ) - 4| ≤ 1 / 10 ^ 6) := by
  rw [animationPath_singleLine 1 2 3 4 300 100 5 (-3 / 10)]
  refine ⟨rfl, ?_, rfl, ?_⟩
  · intro hc
    have := hc.1
    rw [abs_le] at this
    norm_num at this
  · intro hc
    have := hc.1
    rw [abs_le] at this
    norm_num at this

/-! ### C4: start/end override pass -/

/-- The per-line effect of the offset pass including its global guard
(used to state facts uniformly in the zero- and non-zero-offset
cases). -/
def offsetLineOpt (dx dy : ℝ) (l : GLine) : GLine :=
  if dx ≠ 0 ∨ dy ≠ 0 then offsetLine dx dy l else l

lemma offsetPass_eq_map (dx dy : ℝ) (p : List GLine) :
    offsetPass dx dy p = p.map (offsetLineOpt dx dy) := by
  unfold offsetPass
  by_cases h : dx ≠ 0 ∨ dy ≠ 0
  · rw [if_pos h]
    have hf : offsetLineOpt dx dy = offsetLine dx dy :=
      funext fun l => if_pos h
    rw [hf]
  · rw [if_neg h]
    have hf : offsetLineOpt dx dy = fun l => l :=
      funext fun l => if_neg h
    rw [hf, List.map_id']

lemma hasXY_offsetLine (dx dy : ℝ) (l : GLine) :
    hasXY (offsetLine dx dy l) = hasXY l := by
  cases l <;> rfl

lemma hasXY_offsetLineOpt (dx dy : ℝ) (l : GLine) :
    hasXY (offsetLineOpt dx dy l) = hasXY l := by
  unfold offsetLineOpt
  split_ifs
  · exact hasXY_offsetLine dx dy l
  · rfl

lemma hasXY_setXY (vx vy : ℝ) (l : GLine) :
    hasXY (setXY vx vy l) = hasXY l := by
  cases l <;> rfl

lemma ijVal_offsetLineOpt (dx dy : ℝ) (l : GLine) :
    ijVal (offsetLineOpt dx dy l) = ijVal l := by
  unfold offsetLineOpt
  split_ifs
  · cases l <;> rfl
  · rfl

lemma ijVal_setXY (vx vy : ℝ) (l : GLine) :
    ijVal (setXY vx vy l) = ijVal l := by
  cases l <;> rfl

lemma xyVal_setXY_of_hasXY (vx vy : ℝ) (l : GLine) (h : hasXY l = true) :
    xyVal (setXY vx vy l) = some (vx, vy) := by
  cases l <;> simp_all [hasXY, hasX, hasY, setXY, xyVal]

lemma overrideFirst_append_free (f : GLine → GLine) (a r : List GLine)
    (ha : ∀ l ∈ a, hasXY l = false) :
    overrideFirst f (a ++ r) = a ++ overrideFirst f r := by
  induction a with
  | nil => rfl
  | cons l ls ih =>
    have hl : hasXY l = false := ha l (by simp)
    simp only [List.cons_append, overrideFirst, hl, Bool.false_eq_true,
      if_false, List.cons.injEq, true_and]
    exact ih (fun t ht => ha t (by simp [ht]))

lemma overrideFirst_cons_true (f : GLine → GLine) (l : GLine)
    (ls : List GLine) (h : hasXY l = true) :
    overrideFirst f (l :: ls) = f l :: ls := by
  simp [overrideFirst, h]

lemma overrideLast_append_cons_free (g : GLine → GLine) (P b : List GLine)
    (y : GLine) (hb : ∀ l ∈ b, hasXY l = false) (hy : hasXY y = true) :
    overrideLast g (P ++ y :: b) = P ++ g y :: b := by
  unfold overrideLast
  have h1 : (P ++ y :: b).reverse = b.reverse ++ y :: P.reverse := by
    simp [List.reverse_append, List.reverse_cons]
  rw [h1, overrideFirst_append_free _ _ _
      (fun l hl => hb l (List.mem_reverse.mp hl)),
    overrideFirst_cons_true _ _ _ hy]
  simp [List.reverse_append, List.reverse_cons]

lemma find?_append_free (p : GLine → Bool) (a r : List GLine)
    (ha : ∀ l ∈ a, p l = false) :
    (a ++ r).find? p = r.find? p := by
  induction a with
  | nil => rfl
  | cons l ls ih =>
    have hl : p l = false := ha l (by simp)
    rw [List.cons_append, List.find?_cons_of_neg _ (by simp [hl])]
    exact ih (fun t ht => ha t (by simp [ht]))

lemma mem_map_free (dx dy : ℝ) (u : List GLine)
    (hu : ∀ l ∈ u, hasXY l = false) :
    ∀ l ∈ u.map (offsetLineOpt dx dy), hasXY l = false := by
  intro l hl
  obtain ⟨t, ht, rfl⟩ := List.mem_map.mp hl
  rw [hasXY_offsetLineOpt]
  exact hu t ht

lemma header_map_free (dx dy sz : ℝ) :
    ∀ l ∈ (generate_gcode_header sz).map (offsetLineOpt dx dy),
      hasXY l = false := by
  apply mem_map_free
  intro l hl
  simp only [generate_gcode_header, List.mem_cons, List.mem_singleton] at hl
  rcases hl with rfl | rfl | rfl | rfl | rfl | h
  · rfl
  · rfl
  · rfl
  · rfl
  · rfl
  · simp at h

lemma map_ijVal_map_opt (dx dy : ℝ) (u : List GLine) :
    (u.map (offsetLineOpt dx dy)).map ijVal = u.map ijVal := by
  rw [List.map_map]
  exact List.map_congr_left (fun t _ => by
    simp [Function.comp, ijVal_offsetLineOpt])

lemma dxf_assemble_decomp (a c b : List GLine) (x y : GLine)
    (ha : ∀ l ∈ a, hasXY l = false) (hb : ∀ l ∈ b, hasXY l = false)
    (hx : hasXY x = true) (hy : hasXY y = true)
    (dx dy sx sy ex ey sz : ℝ) :
    dxf_assemble sz (a ++ x :: (c ++ y :: b)) dx dy sx sy ex ey =
      ((generate_gcode_header sz).map (offsetLineOpt dx dy) ++
        (a.map (offsetLineOpt dx dy) ++
          setXY sx sy (offsetLineOpt dx dy x) ::
            (c.map (offsetLineOpt dx dy) ++
              setXY ex ey (offsetLineOpt dx dy y) ::
                b.map (offsetLineOpt dx dy)))) ++
      generate_gcode_footer sz := by
  unfold dxf_assemble
  simp only [offsetPass_eq_map, List.map_append, List.map_cons]
  have hlen : ((generate_gcode_header sz).map (offsetLineOpt dx dy) ++
        (a.map (offsetLineOpt dx dy) ++
          offsetLineOpt dx dy x ::
            (c.map (offsetLineOpt dx dy) ++
              offsetLineOpt dx dy y :: b.map (offsetLineOpt dx dy))) ++
        (generate_gcode_footer sz).map (offsetLineOpt dx dy)).length -
        (generate_gcode_footer sz).length =
      ((generate_gcode_header sz).map (offsetLineOpt dx dy) ++
        (a.map (offsetLineOpt dx dy) ++
          offsetLineOpt dx dy x ::
            (c.map (offsetLineOpt dx dy) ++
              offsetLineOpt dx dy y ::
                b.map (offsetLineOpt dx dy)))).length := by
    simp [generate_gcode_header, generate_gcode_footer]
    omega
  rw [hlen, List.take_left]
  rw [overrideFirst_append_free _ _ _ (header_map_free dx dy sz),
    overrideFirst_append_free _ _ _ (mem_map_free dx dy a ha),
    overrideFirst_cons_true _ _ _ (by rw [hasXY_offsetLineOpt]; exact hx)]
  have hP : (generate_gcode_header sz).map (offsetLineOpt dx dy) ++
      (a.map (offsetLineOpt dx dy) ++
        setXY sx sy (offsetLineOpt dx dy x) ::
          (c.map (offsetLineOpt dx dy) ++
            offsetLineOpt dx dy y :: b.map (offsetLineOpt dx dy))) =
      ((generate_gcode_header sz).map (offsetLineOpt dx dy) ++
        a.map (offsetLineOpt dx dy) ++
        setXY sx sy (offsetLineOpt dx dy x) ::
          c.map (offsetLineOpt dx dy)) ++
        offsetLineOpt dx dy y :: b.map (offsetLineOpt dx dy) := by
    simp
  rw [hP, overrideLast_append_cons_free _ _ _ _
      (mem_map_free dx dy b hb) (by rw [hasXY_offsetLineOpt]; exact hy)]
  simp

lemma reverse_append_cons (P b : List GLine) (y : GLine) :
    (P ++ y :: b).reverse = b.reverse ++ y :: P.reverse := by
  simp [List.reverse_append, List.reverse_cons]

/-- C4 (amended).  After assembly (generate, then offset, then
override), provided the body contains at least two lines bearing both
`X` and `Y` tokens (decomposed below as `a ++ x :: (c ++ y :: b)` with
`a` before the first such line `x` and `b` after the last one `y`): the
first `X`/`Y`-bearing line of the footer-stripped program carries
literally `(start_x, start_y)` and the last one literally
`(end_x, end_y)` — verbatim, independent of the offsets; the footer is
excluded from the scan and restored unmodified (and non-offset, since
the code re-generates it after slicing); and no `I`/`J` centre offset
anywhere in the program is modified.  When the body has exactly one
such line, the end override overwrites the start override instead (see
the counterexample). -/
theorem c4_override_amended (a c b : List GLine) (x y : GLine)
    (ha : ∀ l ∈ a, hasXY l = false) (hb : ∀ l ∈ b, hasXY l = false)
    (hx : hasXY x = true) (hy : hasXY y = true)
    (dx dy sx sy ex ey sz : ℝ) :
    ((((dxf_assemble sz (a ++ x :: (c ++ y :: b)) dx dy sx sy ex ey).take
        ((dxf_assemble sz (a ++ x :: (c ++ y :: b)) dx dy sx sy ex ey).length
          - 4)).find? hasXY).bind xyVal = some (sx, sy)) ∧
    ((((dxf_assemble sz (a ++ x :: (c ++ y :: b)) dx dy sx sy ex ey).take
        ((dxf_assemble sz (a ++ x :: (c ++ y :: b)) dx dy sx sy ex ey).length
          - 4)).reverse.find? hasXY).bind xyVal = some (ex, ey)) ∧
    ((dxf_assemble sz (a ++ x :: (c ++ y :: b)) dx dy sx sy ex ey).drop
        ((dxf_assemble sz (a ++ x :: (c ++ y :: b)) dx dy sx sy ex ey).length
          - 4) = generate_gcode_footer sz) ∧
    ((dxf_assemble sz (a ++ x :: (c ++ y :: b)) dx dy sx sy ex ey).map ijVal =
      (generate_gcode_header sz ++ (a ++ x :: (c ++ y :: b)) ++
        generate_gcode_footer sz).map ijVal) := by
  have hm := dxf_assemble_decomp a c b x y ha hb hx hy dx dy sx sy ex ey sz
  rw [hm]
  have hlen : (((generate_gcode_header sz).map (offsetLineOpt dx dy) ++
        (a.map (offsetLineOpt dx dy) ++
          setXY sx sy (offsetLineOpt dx dy x) ::
            (c.map (offsetLineOpt dx dy) ++
              setXY ex ey (offsetLineOpt dx dy y) ::
                b.map (offsetLineOpt dx dy)))) ++
        generate_gcode_footer sz).length - 4 =
      ((generate_gcode_header sz).map (offsetLineOpt dx dy) ++
        (a.map (offsetLineOpt dx dy) ++
          setXY sx sy (offsetLineOpt dx dy x) ::
            (c.map (offsetLineOpt dx dy) ++
              setXY ex ey (offsetLineOpt dx dy y) ::
                b.map (offsetLineOpt dx dy)))).length := by
    simp [generate_gcode_header, generate_gcode_footer]
    omega
  rw [hlen, List.take_left, List.drop_left]
  refine ⟨?_, ?_, rfl, ?_⟩
  · rw [find?_append_free _ _ _ (header_map_free dx dy sz),
      find?_append_free _ _ _ (mem_map_free dx dy a ha),
      List.find?_cons_of_pos _
        (by rw [hasXY_setXY, hasXY_offsetLineOpt]; exact hx)]
    exact xyVal_setXY_of_hasXY sx sy _
      (by rw [hasXY_offsetLineOpt]; exact hx)
  · have hshape : (generate_gcode_header sz).map (offsetLineOpt dx dy) ++
        (a.map (offsetLineOpt dx dy) ++
          setXY sx sy (offsetLineOpt dx dy x) ::
            (c.map (offsetLineOpt dx dy) ++
              setXY ex ey (offsetLineOpt dx dy y) ::
                b.map (offsetLineOpt dx dy))) =
        ((generate_gcode_header sz).map (offsetLineOpt dx dy) ++
          a.map (offsetLineOpt dx dy) ++
          setXY sx sy (offsetLineOpt dx dy x) ::
            c.map (offsetLineOpt dx dy)) ++
          setXY ex ey (offsetLineOpt dx dy y) ::
            b.map (offsetLineOpt dx dy) := by
      simp
    rw [hshape, reverse_append_cons,
      find?_append_free _ _ _
        (fun l hl => mem_map_free dx dy b hb l (List.mem_reverse.mp hl)),
      List.find?_cons_of_pos _
        (by rw [hasXY_setXY, hasXY_offsetLineOpt]; exact hy)]
    exact xyVal_setXY_of_hasXY ex ey _
      (by rw [hasXY_offsetLineOpt]; exact hy)
  · simp only [List.map_append, List.map_cons, map_ijVal_map_opt,
      ijVal_setXY, ijVal_offsetLineOpt]

/-- Witness for C4 on a two-XY-line body with non-zero offsets. -/
theorem c4_override_amended_witness :
    (∀ l ∈ ([] : List GLine), hasXY l = false) ∧
    hasXY (GLine.g00xy 1 2) = true ∧
    hasXY (GLine.g01xyf 3 4 300) = true ∧
    ((((dxf_assemble 5 [GLine.g00xy 1 2, GLine.g01xyf 3 4 300]
        10 20 7 8 11 12).take
        ((dxf_assemble 5 [GLine.g00xy 1 2, GLine.g01xyf 3 4 300]
          10 20 7 8 11 12).length - 4)).find? hasXY).bind xyVal =
      some (7, 8)) ∧
    ((((dxf_assemble 5 [GLine.g00xy 1 2, GLine.g01xyf 3 4 300]
        10 20 7 8 11 12).take
        ((dxf_assemble 5 [GLine.g00xy 1 2, GLine.g01xyf 3 4 300]
          10 20 7 8 11 12).length - 4)).reverse.find? hasXY).bind xyVal =
      some (11, 12)) ∧
    ((dxf_assemble 5 [GLine.g00xy 1 2, GLine.g01xyf 3 4 300]
        10 20 7 8 11 12).drop
        ((dxf_assemble 5 [GLine.g00xy 1 2, GLine.g01xyf 3 4 300]
          10 20 7 8 11 12).length - 4) = generate_gcode_footer 5) ∧
    ((dxf_assemble 5 [GLine.g00xy 1 2, GLine.g01xyf 3 4 300]
        10 20 7 8 11 12).map ijVal =
      (generate_gcode_header 5 ++ [GLine.g00xy 1 2, GLine.g01xyf 3 4 300] ++
        generate_gcode_footer 5).map ijVal) := by
  have h := c4_override_amended [] [] [] (GLine.g00xy 1 2)
    (GLine.g01xyf 3 4 300) (by simp) (by simp) rfl rfl 10 20 7 8 11 12 5
  exact ⟨by simp, rfl, rfl, h.1, h.2.1, h.2.2.1, h.2.2.2⟩

/-- C4 counterexample.  A single-vertex polyline produces a body with
exactly one `X`/`Y`-bearing line; the backward (end) override then
overwrites the forward (start) override, so the first body line
containing both `X` and `Y` carries `(end_x, end_y) = (9, 10)` rather
than the claimed `(start_x, start_y) = (7, 8)`. -/
theorem c4_override_counterexample :
    (lwpolyline_to_gcode [((5 : ℝ), (6 : ℝ), (0 : ℝ))] none 300 100 5
        (-3 / 10)).1 =
      [GLine.g00xy 5 6, GLine.g01zf (-3 / 10) 100, GLine.g00z 5] ∧
    ((((dxf_assemble 5
        [GLine.g00xy 5 6, GLine.g01zf (-3 / 10) 100, GLine.g00z 5]
        0 0 7 8 9 10).take
        ((dxf_assemble 5
          [GLine.g00xy 5 6, GLine.g01zf (-3 / 10) 100, GLine.g00z 5]
          0 0 7 8 9 10).length - 4)).find? hasXY).bind xyVal =
      some (9, 10)) ∧
    some (((9 : ℝ), (10 : ℝ)) : ℝ × ℝ) ≠ some (((7 : ℝ), (8 : ℝ)) : ℝ × ℝ) := by
  refine ⟨?_, ?_, by norm_num [Prod.ext_iff]⟩
  · simp [lwpolyline_to_gcode, maybeRapid, segCmds]
  · simp [dxf_assemble, offsetPass, generate_gcode_header,
      generate_gcode_footer, overrideFirst, overrideLast, hasXY, hasX, hasY,
      setXY, xyVal, List.find?]

end DxfGcode
